import Mathlib

/-
Verification of the Battleship game-state engine
(src/spiral/envs/Battleship/env.py) against its specification.

The engine's grids are N x N matrices of single-character strings; here a
grid is a total function from (row, column) to the cell character, with the
never-accessed cells outside [0, N) held at '~'.  The per-player dicts
keyed 0 and 1 become length-two lists.  The random draws of the placement
loop become an explicit stream of attempts.
-/

namespace Battleship

abbrev Grid := Nat → Nat → Char

def emptyGrid : Grid := fun _ _ => '~'

def updateGrid (g : Grid) (r c : Nat) (v : Char) : Grid :=
  fun i j => if i = r ∧ j = c then v else g i j

/-- The fleet catalog `self.ships`, in the dict's insertion order. -/
def ships : List (String × Nat) :=
  [("Aircraft Carrier", 5), ("Battleship", 4), ("Submarine", 3),
   ("Destroyer", 3), ("Patrol Boat", 2)]

/-- First letter of a ship name, the identifier written on the grid
(`ship_name[0]`). -/
def headLetter (name : String) : Char := name.toList.headD ' '

/-- The set `{name[0] for name in self.ships}` used by `_check_win`. -/
def shipInitials : List Char := ships.map (fun p => headLetter p.1)

/-- Decimal value of a digit string, as computed by Python `int`. -/
def digitsVal (ds : List Char) : Nat :=
  ds.foldl (fun n d => n * 10 + (d.toNat - Char.toNat '0')) 0

/-- Attempt to match the regex `\[([A-Z])(\d+)\]` (IGNORECASE) at the head of
the string: an opening bracket, one letter, a maximal nonempty digit run,
then a closing bracket.  Returns the letter and the numeric column value. -/
def matchAt : List Char → Option (Char × Nat)
  | c0 :: c :: rest =>
    if c0 = '[' ∧ c.isAlpha = true then
      let ds := rest.takeWhile Char.isDigit
      match ds, rest.dropWhile Char.isDigit with
      | _ :: _, ']' :: _ => some (c, digitsVal ds)
      | _, _ => none
    else none
  | _ => none

/-- `self.coord_pattern.search(action)`: the leftmost match of the bracketed
coordinate pattern anywhere in the action string. -/
def findCoord : List Char → Option (Char × Nat)
  | [] => none
  | c :: rest =>
    match matchAt (c :: rest) with
    | some r => some r
    | none => findCoord rest

/-- `ord(match.group(1).upper()) - ord('A')`.  The parsed letter is an ASCII
letter, so the value is a natural number and the source's `row < 0` check
is vacuous. -/
def rowIdx (letter : Char) : Nat := letter.toUpper.toNat - Char.toNat 'A'

/-- The per-match mutable state: the `ta.State` player count together with
the `game_state` dict (`board`, `tracking_board`, `ship_placements`),
each player-indexed dict modelled as a length-two list. -/
structure MatchState where
  num_players : Nat
  board : List Grid
  tracking_board : List Grid
  ship_placements : List (List (String × List (Nat × Nat)))
deriving Inhabited

inductive ShotOutcome
  | miss
  | hit
  | sunk (ship_initial : Char)
deriving DecidableEq

/-- Observable outcome of one `step` call: which invalid-move reason was
reported, or the resolved shot (coordinates, hit/miss/sunk outcome, and
whether the shooter was declared winner). -/
inductive StepResult
  | invalidNoCoord
  | invalidOutside
  | invalidAlreadyFired
  | shot (row col : Nat) (outcome : ShotOutcome) (win : Bool)
deriving DecidableEq

/-- Scan of the whole grid for an occurrence of a character, as in
`any(ship_initial in row_cells for row_cells in opponent_board)`. -/
def scanAny (g : Grid) (N : Nat) (c : Char) : Bool :=
  (List.range N).any fun i => (List.range N).any fun j => g i j == c

/-- `_check_win`: true when no cell of the opponent's grid holds any of the
fleet's identifier letters. -/
def check_win (s : MatchState) (player_id N : Nat) : Bool :=
  let opponent_board := s.board.getD (1 - player_id) emptyGrid
  ! ((List.range N).any fun i =>
      (List.range N).any fun j => shipInitials.contains (opponent_board i j))

/-- The `step` method: parse the first bracketed coordinate, validate bounds
and the not-already-fired condition, then resolve the shot (miss, hit, or
hit-and-sunk), mutate the two affected grids, and check the win condition. -/
def step (N player_id : Nat) (action : List Char) (s : MatchState) :
    StepResult × MatchState :=
  match findCoord action with
  | none => (StepResult.invalidNoCoord, s)
  | some (letter, col) =>
    let row := rowIdx letter
    if N ≤ row ∨ N ≤ col then (StepResult.invalidOutside, s)
    else
      let tracking_board := s.tracking_board.getD player_id emptyGrid
      if tracking_board row col ≠ '~' then (StepResult.invalidAlreadyFired, s)
      else
        let opponent_id := 1 - player_id
        let opponent_board := s.board.getD opponent_id emptyGrid
        if opponent_board row col ≠ '~' then
          let ship_initial := opponent_board row col
          let tb2 := updateGrid tracking_board row col 'X'
          let ob2 := updateGrid opponent_board row col 'X'
          let s2 : MatchState :=
            { s with tracking_board := s.tracking_board.set player_id tb2,
                     board := s.board.set opponent_id ob2 }
          let ship_sunk := ! scanAny ob2 N ship_initial
          let outcome :=
            if ship_sunk then ShotOutcome.sunk ship_initial else ShotOutcome.hit
          (StepResult.shot row col outcome (check_win s2 player_id N), s2)
        else
          let tb2 := updateGrid tracking_board row col 'O'
          let ob2 := updateGrid opponent_board row col 'O'
          let s2 : MatchState :=
            { s with tracking_board := s.tracking_board.set player_id tb2,
                     board := s.board.set opponent_id ob2 }
          (StepResult.shot row col ShotOutcome.miss (check_win s2 player_id N), s2)

/-- One iteration's random draws in `_place_ship_on_board`: the chosen
direction and the `randint` anchor row and column. -/
structure Attempt where
  horizontal : Bool
  row : Nat
  col : Nat

/-- The ranges guaranteed by the source's `randint` calls:
`randint(0, grid_size - 1)` for the free axis and
`randint(0, grid_size - length)` for the anchor along the ship's direction
(stated additively; for `1 ≤ length ≤ N` the forms agree). -/
def ValidAttempt (N len : Nat) (a : Attempt) : Prop :=
  if a.horizontal then a.row < N ∧ a.col + len ≤ N
  else a.row + len ≤ N ∧ a.col < N

/-- The availability check: every target cell currently holds '~'. -/
def fits (g : Grid) (len : Nat) (a : Attempt) : Bool :=
  if a.horizontal then (List.range len).all fun i => g a.row (a.col + i) == '~'
  else (List.range len).all fun i => g (a.row + i) a.col == '~'

/-- The ordered list of cells an attempt would occupy. -/
def placeCells (len : Nat) (a : Attempt) : List (Nat × Nat) :=
  if a.horizontal then (List.range len).map fun i => (a.row, a.col + i)
  else (List.range len).map fun i => (a.row + i, a.col)

/-- Write the ship's identifier letter on each occupied cell. -/
def markCells (g : Grid) (letter : Char) (cells : List (Nat × Nat)) : Grid :=
  cells.foldl (fun g2 rc => updateGrid g2 rc.1 rc.2 letter) g

/-- `_place_ship_on_board`'s bounded rejection-sampling loop: `stream k` is
the draw of the k-th iteration and the fuel starts at the retry cap 100.
On success the grid with the ship marked and the recorded placement are
returned; exhausting the cap raises `RuntimeError`, modelled as an error. -/
def place_ship_on_board (g : Grid) (ship_name : String) (len : Nat)
    (stream : Nat → Attempt) : Nat → Nat → Except String (Grid × List (Nat × Nat))
  | _, 0 => Except.error ("Could not place ship " ++ ship_name ++ " after 100 attempts")
  | k, fuel + 1 =>
    let a := stream k
    if fits g len a then
      Except.ok (markCells g (headLetter ship_name) (placeCells len a), placeCells len a)
    else
      place_ship_on_board g ship_name len stream (k + 1) fuel

/-- The retry cap `max_attempts = 100`. -/
def max_attempts : Nat := 100

/-- Place every catalog ship of `fleet` in order on one player's grid;
`shipIdx` numbers the placements globally so that each one reads its own
stream of draws. -/
def placeFleet (g : Grid) (fleet : List (String × Nat))
    (stream : Nat → Nat → Attempt) (shipIdx : Nat) :
    Except String (Grid × List (String × List (Nat × Nat))) :=
  match fleet with
  | [] => Except.ok (g, [])
  | (name, len) :: rest => do
    let r ← place_ship_on_board g name len (stream shipIdx) 0 max_attempts
    let r2 ← placeFleet r.1 rest stream (shipIdx + 1)
    Except.ok (r2.1, (name, r.2) :: r2.2)

/-- `_generate_boards`: fresh all-'~' grids and tracking grids for players
0 and 1, with the full catalog placed on each player's grid. -/
def generate_boards (stream : Nat → Nat → Attempt) :
    Except String (List Grid × List Grid × List (List (String × List (Nat × Nat)))) := do
  let p0 ← placeFleet emptyGrid ships stream 0
  let p1 ← placeFleet emptyGrid ships stream ships.length
  Except.ok ([p0.1, p1.1], [emptyGrid, emptyGrid], [p0.2, p1.2])

set_option linter.unusedVariables false in
/-- `reset`: builds the match state.  The source passes the literal 2 to
`ta.State(num_players=2, ...)` and never reads its own `num_players`
argument. -/
def reset (num_players : Nat) (stream : Nat → Nat → Attempt) :
    Except String MatchState := do
  let g ← generate_boards stream
  Except.ok { num_players := 2, board := g.1, tracking_board := g.2.1,
              ship_placements := g.2.2 }

/-- Length of the catalog ship that global placement index `si` refers to
(`_generate_boards` places the five catalog ships for player 0 and then
again for player 1). -/
def shipLen (si : Nat) : Nat := (ships.getD (si % 5) ("", 0)).2

/-- A placement is `length` contiguous cells in a single horizontal or
vertical line. -/
def isLinePlacement (len : Nat) (cells : List (Nat × Nat)) : Prop :=
  ∃ r c, cells = (List.range len).map (fun i => (r, c + i))
    ∨ cells = (List.range len).map (fun i => (r + i, c))

def inBoundsCells (N : Nat) (cells : List (Nat × Nat)) : Prop :=
  ∀ p ∈ cells, p.1 < N ∧ p.2 < N

/-- A bracketed coordinate token (one letter, a nonempty digit run, then a
closing bracket) occurs in the string at position `p`. -/
def tokenAt (a : List Char) (p : Nat) : Prop :=
  ∃ letter ds rest, a.drop p = '[' :: letter :: (ds ++ ']' :: rest)
    ∧ letter.isAlpha = true ∧ ds ≠ [] ∧ ∀ d ∈ ds, d.isDigit = true

/-- A cell carries a hit or miss marker. -/
def marked (c : Char) : Prop := c = 'X' ∨ c = 'O'

instance (c : Char) : Decidable (marked c) := by
  unfold marked
  infer_instance

/-- A grid with no hit or miss marker anywhere. -/
def UnmarkedGrid (g : Grid) : Prop := ∀ i j, ¬ marked (g i j)

/-- The correspondence a real match maintains between one cell of a
shooter's tracking grid and the matching cell of the opponent's grid:
either the cell has not been fired upon and the opponent's cell carries no
marker, or both carry the same hit/miss marker. -/
def cellInv (tbcell obcell : Char) : Prop :=
  (tbcell = '~' ∧ ¬ marked obcell) ∨ (tbcell = obcell ∧ marked obcell)

/-- The state invariant of a match on an N x N board. -/
def Inv (N : Nat) (s : MatchState) : Prop :=
  s.board.length = 2 ∧ s.tracking_board.length = 2 ∧
  ∀ p, p < 2 → ∀ i j,
    (i < N → j < N →
      cellInv (s.tracking_board.getD p emptyGrid i j)
        (s.board.getD (1 - p) emptyGrid i j))
    ∧ (¬ (i < N ∧ j < N) →
      s.tracking_board.getD p emptyGrid i j = '~'
      ∧ ¬ marked (s.board.getD (1 - p) emptyGrid i j))

/-- States reachable from a freshly reset match by any sequence of `step`
calls (the host framework only ever passes a current player id of 0 or 1). -/
inductive Reachable (N : Nat) : MatchState → Prop
  | init (num_players : Nat) (stream : Nat → Nat → Attempt) (s : MatchState) :
      reset num_players stream = Except.ok s → Reachable N s
  | step (s : MatchState) (player_id : Nat) (action : List Char) :
      Reachable N s → player_id < 2 →
      Reachable N (step N player_id action s).2

/-- Final state of a sequence of `step` calls, each given as (current
player id, action string). -/
def runAll (N : Nat) (s : MatchState) (acts : List (Nat × List Char)) : MatchState :=
  acts.foldl (fun t a => (step N a.1 a.2 t).2) s

/-- The step results of a sequence of `step` calls, in order. -/
def runResults (N : Nat) (s : MatchState) : List (Nat × List Char) → List StepResult
  | [] => []
  | a :: rest => (step N a.1 a.2 s).1 :: runResults N (step N a.1 a.2 s).2 rest

/-- The ship letter a result reports as sunk, if any. -/
def sunkOf : StepResult → Option Char
  | StepResult.shot _ _ (ShotOutcome.sunk L) _ => some L
  | _ => none

/-
Concrete fixtures used by the witness theorems.
-/

/-- A grid with an Aircraft-Carrier-like letter run on row 0, columns 0-4. -/
def wGridA : Grid := fun i j => if i = 0 ∧ j < 5 then 'A' else '~'

/-- A state whose opponent (player 1) grid is `wGridA`. -/
def wStateA : MatchState :=
  { num_players := 2, board := [emptyGrid, wGridA],
    tracking_board := [emptyGrid, emptyGrid], ship_placements := [[], []] }

/-- A grid holding a single Patrol-Boat cell at (2,2). -/
def wGridP : Grid := fun i j => if i = 2 ∧ j = 2 then 'P' else '~'

/-- A state whose opponent (player 1) grid is `wGridP`: one shot can sink
the last ship and win. -/
def wStateP : MatchState :=
  { num_players := 2, board := [emptyGrid, wGridP],
    tracking_board := [emptyGrid, emptyGrid], ship_placements := [[], []] }

/-- A state in which player 0 has already fired at (0,4). -/
def wStateFired : MatchState :=
  { num_players := 2, board := [emptyGrid, emptyGrid],
    tracking_board := [updateGrid emptyGrid 0 4 'X', emptyGrid],
    ship_placements := [[], []] }

/-- A grid with every cell occupied; no placement attempt can fit. -/
def wFullGrid : Grid := fun _ _ => 'Z'

/-- A draw stream that places the ten catalog ships on rows 0-4 of each
player's 10 x 10 grid, horizontally from column 0, on the first attempt. -/
def wStream : Nat → Nat → Attempt := fun shipIdx _ => ⟨true, shipIdx % 5, 0⟩

/-- The state `reset` builds from `wStream`. -/
def wState : MatchState :=
  match reset 2 wStream with
  | Except.ok st => st
  | Except.error _ => default

/-- The scenario action string, with the contraction apostrophe written via
its code point 39: it equals the 27-character string I + apostrophe +
`ll fire at [A4] this turn`. -/
def scenarioAction : List Char :=
  'I' :: Char.ofNat 39 :: ("ll fire at [A4] this turn".toList)

/-
Helper lemmas shared by the claim theorems.
-/

theorem getD_set {α : Type} (l : List α) (m n : Nat) (x d : α) :
    (l.set m x).getD n d = if m = n ∧ n < l.length then x else l.getD n d := by
  induction l generalizing m n with
  | nil => simp
  | cons a t ih =>
    cases m with
    | zero =>
      cases n with
      | zero => simp [List.getD]
      | succ k => simp [List.getD]
    | succ m2 =>
      cases n with
      | zero => simp [List.getD]
      | succ k =>
        have hset : (a :: t).set (m2 + 1) x = a :: t.set m2 x := rfl
        rw [hset]
        have h1 : (a :: t.set m2 x).getD (k + 1) d = (t.set m2 x).getD k d := rfl
        have h2 : (a :: t).getD (k + 1) d = t.getD k d := rfl
        rw [h1, h2, ih]
        by_cases hc : m2 = k ∧ k < t.length
        · have hpos : m2 + 1 = k + 1 ∧ k + 1 < (a :: t).length := by
            simp only [List.length_cons]
            exact ⟨by omega, by omega⟩
          rw [if_pos hc, if_pos hpos]
        · have hneg : ¬ (m2 + 1 = k + 1 ∧ k + 1 < (a :: t).length) := by
            simp only [List.length_cons]
            intro h3
            exact hc ⟨by omega, by omega⟩
          rw [if_neg hc, if_neg hneg]

theorem updateGrid_eval (g : Grid) (r c i j : Nat) (v : Char) :
    updateGrid g r c v i j = if i = r ∧ j = c then v else g i j := rfl

/-- Inversion: everything that must have happened when `step` resolved a
validated shot. -/
theorem step_shot_inv {N player_id : Nat} {action : List Char} {s : MatchState}
    {r c : Nat} {out : ShotOutcome} {win : Bool} {s2 : MatchState}
    (h : step N player_id action s = (StepResult.shot r c out win, s2)) :
    ∃ letter, findCoord action = some (letter, c) ∧ r = rowIdx letter ∧ r < N ∧ c < N
    ∧ (s.tracking_board.getD player_id emptyGrid) r c = '~'
    ∧ ((s.board.getD (1 - player_id) emptyGrid) r c = '~' →
        out = ShotOutcome.miss
        ∧ s2 = { s with
            tracking_board := s.tracking_board.set player_id
              (updateGrid (s.tracking_board.getD player_id emptyGrid) r c 'O'),
            board := s.board.set (1 - player_id)
              (updateGrid (s.board.getD (1 - player_id) emptyGrid) r c 'O') }
        ∧ win = check_win s2 player_id N)
    ∧ ((s.board.getD (1 - player_id) emptyGrid) r c ≠ '~' →
        out = (if scanAny (updateGrid (s.board.getD (1 - player_id) emptyGrid) r c 'X') N
                    ((s.board.getD (1 - player_id) emptyGrid) r c) = false
               then ShotOutcome.sunk ((s.board.getD (1 - player_id) emptyGrid) r c)
               else ShotOutcome.hit)
        ∧ s2 = { s with
            tracking_board := s.tracking_board.set player_id
              (updateGrid (s.tracking_board.getD player_id emptyGrid) r c 'X'),
            board := s.board.set (1 - player_id)
              (updateGrid (s.board.getD (1 - player_id) emptyGrid) r c 'X') }
        ∧ win = check_win s2 player_id N) := by
  unfold step at h
  rcases hfind : findCoord action with _ | ⟨letter, col⟩
  · rw [hfind] at h
    simp at h
  · rw [hfind] at h
    simp only at h
    by_cases hout : N ≤ rowIdx letter ∨ N ≤ col
    · rw [if_pos hout] at h
      simp at h
    · rw [if_neg hout] at h
      push_neg at hout
      by_cases htb : (s.tracking_board.getD player_id emptyGrid) (rowIdx letter) col ≠ '~'
      · rw [if_pos htb] at h
        simp at h
      · rw [if_neg htb] at h
        push_neg at htb
        by_cases hob : (s.board.getD (1 - player_id) emptyGrid) (rowIdx letter) col ≠ '~'
        · rw [if_pos hob] at h
          injection h with h1 h2
          injection h1 with hr hc hout2 hwin
          subst hr hc
          subst h2
          subst hout2
          subst hwin
          refine ⟨letter, rfl, rfl, hout.1, hout.2, htb, fun hcon => absurd hcon hob,
            fun _ => ⟨?_, rfl, rfl⟩⟩
          rcases hsc : scanAny (updateGrid (s.board.getD (1 - player_id) emptyGrid)
              (rowIdx letter) col 'X') N
              ((s.board.getD (1 - player_id) emptyGrid) (rowIdx letter) col) with _ | _
          · simp [hsc]
          · simp [hsc]
        · rw [if_neg hob] at h
          push_neg at hob
          injection h with h1 h2
          injection h1 with hr hc hout2 hwin
          subst hr hc
          subst h2
          subst hout2
          subst hwin
          exact ⟨letter, rfl, rfl, hout.1, hout.2, htb, fun _ => ⟨rfl, rfl, rfl⟩,
            fun hcon => absurd hob hcon⟩

/-- C4: validation applies its checks in order, the first failure wins, and
every failure is reported with its reason while leaving the state
unchanged: no coordinate token, then out-of-board coordinate, then
already-fired cell. -/
theorem step_validation_order (N player_id : Nat) (action : List Char) (s : MatchState) :
    (findCoord action = none →
      step N player_id action s = (StepResult.invalidNoCoord, s))
    ∧ (∀ letter col, findCoord action = some (letter, col) →
        (N ≤ rowIdx letter ∨ N ≤ col) →
        step N player_id action s = (StepResult.invalidOutside, s))
    ∧ (∀ letter col, findCoord action = some (letter, col) →
        rowIdx letter < N → col < N →
        (s.tracking_board.getD player_id emptyGrid) (rowIdx letter) col ≠ '~' →
        step N player_id action s = (StepResult.invalidAlreadyFired, s)) := by
  refine ⟨?_, ?_, ?_⟩
  · intro h
    simp [step, h]
  · intro letter col h hout
    simp [step, h, hout]
  · intro letter col h hr hc ht
    have hno : ¬ (N ≤ rowIdx letter ∨ N ≤ col) := by omega
    rw [List.getD_eq_getElem?_getD] at ht
    simp [step, h, hno, ht]

/-- Witness for C4: a tokenless action, the out-of-board shot [Z9] on a
10 x 10 board, and a repeat shot at [A4] are each rejected with the claimed
reason, leaving the state unchanged. -/
theorem step_validation_order_witness :
    step 10 0 ("fire!".toList) wStateA = (StepResult.invalidNoCoord, wStateA)
    ∧ step 10 0 ("[Z9]".toList) wStateA = (StepResult.invalidOutside, wStateA)
    ∧ step 10 0 ("[A4]".toList) wStateFired = (StepResult.invalidAlreadyFired, wStateFired) :=
  ⟨(step_validation_order 10 0 ("fire!".toList) wStateA).1 (by decide),
   (step_validation_order 10 0 ("[Z9]".toList) wStateA).2.1 'Z' 9 (by decide) (by decide),
   (step_validation_order 10 0 ("[A4]".toList) wStateFired).2.2 'A' 4 (by decide)
     (by decide) (by decide) (by decide)⟩

theorem check_win_true_iff (s : MatchState) (player_id N : Nat) :
    check_win s player_id N = true ↔
      ∀ i, i < N → ∀ j, j < N →
        s.board.getD (1 - player_id) emptyGrid i j ∉ shipInitials := by
  unfold check_win
  simp [List.any_eq_true, List.mem_range]

/-- C1: a validated shot at (r,c) transitions both affected cells to the
miss marker and reports a miss when the target cell is empty; otherwise
both cells transition to the hit marker and the result is sunk if and only
if, after the update, no cell of the opponent grid still holds the captured
letter, and a plain hit otherwise. -/
theorem step_shot_resolution (N player_id : Nat) (action : List Char) (s : MatchState)
    (r c : Nat) (out : ShotOutcome) (win : Bool) (s2 : MatchState)
    (hp : player_id < 2) (hb : s.board.length = 2) (htl : s.tracking_board.length = 2)
    (h : step N player_id action s = (StepResult.shot r c out win, s2)) :
    (s.board.getD (1 - player_id) emptyGrid r c = '~' →
       out = ShotOutcome.miss
       ∧ s2.tracking_board.getD player_id emptyGrid r c = 'O'
       ∧ s2.board.getD (1 - player_id) emptyGrid r c = 'O')
    ∧ (s.board.getD (1 - player_id) emptyGrid r c ≠ '~' →
       s2.tracking_board.getD player_id emptyGrid r c = 'X'
       ∧ s2.board.getD (1 - player_id) emptyGrid r c = 'X'
       ∧ (out = ShotOutcome.sunk (s.board.getD (1 - player_id) emptyGrid r c)
            ↔ scanAny (s2.board.getD (1 - player_id) emptyGrid) N
                (s.board.getD (1 - player_id) emptyGrid r c) = false)
       ∧ (out = ShotOutcome.hit
            ↔ scanAny (s2.board.getD (1 - player_id) emptyGrid) N
                (s.board.getD (1 - player_id) emptyGrid r c) = true)) := by
  obtain ⟨letter, hfind, hr, hrN, hcN, htb, hmiss, hhit⟩ := step_shot_inv h
  constructor
  · intro hob
    obtain ⟨ho, hs2, hw⟩ := hmiss hob
    subst hs2
    refine ⟨ho, ?_, ?_⟩
    · simp only []
      rw [getD_set, if_pos ⟨rfl, by omega⟩]
      simp [updateGrid]
    · simp only []
      rw [getD_set, if_pos ⟨rfl, by omega⟩]
      simp [updateGrid]
  · intro hob
    obtain ⟨ho, hs2, hw⟩ := hhit hob
    subst hs2
    have hbset : ({ s with
        tracking_board := s.tracking_board.set player_id
          (updateGrid (s.tracking_board.getD player_id emptyGrid) r c 'X'),
        board := s.board.set (1 - player_id)
          (updateGrid (s.board.getD (1 - player_id) emptyGrid) r c 'X') } :
        MatchState).board.getD (1 - player_id) emptyGrid
        = updateGrid (s.board.getD (1 - player_id) emptyGrid) r c 'X' := by
      simp only []
      rw [getD_set, if_pos ⟨rfl, by omega⟩]
    refine ⟨?_, ?_, ?_, ?_⟩
    · simp only []
      rw [getD_set, if_pos ⟨rfl, by omega⟩]
      simp [updateGrid]
    · rw [hbset]
      simp [updateGrid]
    · rw [hbset, ho]
      rcases hsc : scanAny (updateGrid (s.board.getD (1 - player_id) emptyGrid) r c 'X') N
          (s.board.getD (1 - player_id) emptyGrid r c) with _ | _
      · simp [hsc]
      · simp [hsc]
    · rw [hbset, ho]
      rcases hsc : scanAny (updateGrid (s.board.getD (1 - player_id) emptyGrid) r c 'X') N
          (s.board.getD (1 - player_id) emptyGrid r c) with _ | _
      · simp [hsc]
      · simp [hsc]

/-- Witness for C1: on a board with a carrier on row 0, the shot [A4] marks
the opponent cell with the hit marker and the shot [B4] with the miss
marker. -/
theorem step_shot_resolution_witness :
    ((step 10 0 ("[A4]".toList) wStateA).2.board.getD 1 emptyGrid) 0 4 = 'X'
    ∧ ((step 10 0 ("[B4]".toList) wStateA).2.board.getD 1 emptyGrid) 1 4 = 'O' := by
  have h1 : step 10 0 ("[A4]".toList) wStateA
      = (StepResult.shot 0 4 ShotOutcome.hit false, (step 10 0 ("[A4]".toList) wStateA).2) := rfl
  have h2 : step 10 0 ("[B4]".toList) wStateA
      = (StepResult.shot 1 4 ShotOutcome.miss false, (step 10 0 ("[B4]".toList) wStateA).2) := rfl
  constructor
  · exact ((step_shot_resolution 10 0 ("[A4]".toList) wStateA 0 4 ShotOutcome.hit false _
      (by decide) (by rfl) (by rfl) h1).2 (by decide)).2.1
  · exact ((step_shot_resolution 10 0 ("[B4]".toList) wStateA 1 4 ShotOutcome.miss false _
      (by decide) (by rfl) (by rfl) h2).1 (by decide)).2.2

/-- C2: after a validated shot the shooter is declared winner exactly when
the grid just fired upon, and only that grid, holds no occurrence of any
fleet identifier letter. -/
theorem step_win_iff_opponent_fleet_destroyed (N player_id : Nat) (action : List Char)
    (s : MatchState) (r c : Nat) (out : ShotOutcome) (win : Bool) (s2 : MatchState)
    (h : step N player_id action s = (StepResult.shot r c out win, s2)) :
    win = true ↔
      ∀ i, i < N → ∀ j, j < N →
        s2.board.getD (1 - player_id) emptyGrid i j ∉ shipInitials := by
  obtain ⟨letter, hfind, hr, hrN, hcN, htb, hmiss, hhit⟩ := step_shot_inv h
  have hw : win = check_win s2 player_id N := by
    by_cases hob : s.board.getD (1 - player_id) emptyGrid r c = '~'
    · exact (hmiss hob).2.2
    · exact (hhit hob).2.2
  rw [hw]
  exact check_win_true_iff s2 player_id N

/-- Witness for C2: sinking the last single-cell ship at [C2] declares the
shooter the winner, and indeed no fleet letter remains on the defender
grid. -/
theorem step_win_iff_witness :
    (true = true ↔ ∀ i, i < 10 → ∀ j, j < 10 →
      ((step 10 0 ("[C2]".toList) wStateP).2.board.getD 1 emptyGrid) i j ∉ shipInitials) := by
  have h : step 10 0 ("[C2]".toList) wStateP
      = (StepResult.shot 2 2 (ShotOutcome.sunk 'P') true, (step 10 0 ("[C2]".toList) wStateP).2) := rfl
  exact step_win_iff_opponent_fleet_destroyed 10 0 ("[C2]".toList) wStateP 2 2
    (ShotOutcome.sunk 'P') true _ h

/-- C9: a validated shot changes exactly the shooter tracking cell and the
opponent grid cell at the shot coordinate; every other cell of every grid,
and the ship placement maps, are unchanged. -/
theorem step_shot_frame (N player_id : Nat) (action : List Char) (s : MatchState)
    (r c : Nat) (out : ShotOutcome) (win : Bool) (s2 : MatchState)
    (hp : player_id < 2) (hb : s.board.length = 2) (htl : s.tracking_board.length = 2)
    (hX : s.board.getD (1 - player_id) emptyGrid r c ≠ 'X')
    (h : step N player_id action s = (StepResult.shot r c out win, s2)) :
    s2.ship_placements = s.ship_placements
    ∧ (∀ q i j, ¬ (q = player_id ∧ i = r ∧ j = c) →
        s2.tracking_board.getD q emptyGrid i j = s.tracking_board.getD q emptyGrid i j)
    ∧ (∀ q i j, ¬ (q = 1 - player_id ∧ i = r ∧ j = c) →
        s2.board.getD q emptyGrid i j = s.board.getD q emptyGrid i j)
    ∧ s2.tracking_board.getD player_id emptyGrid r c
        ≠ s.tracking_board.getD player_id emptyGrid r c
    ∧ s2.board.getD (1 - player_id) emptyGrid r c
        ≠ s.board.getD (1 - player_id) emptyGrid r c := by
  obtain ⟨letter, hfind, hr, hrN, hcN, htb, hmiss, hhit⟩ := step_shot_inv h
  by_cases hob : s.board.getD (1 - player_id) emptyGrid r c = '~'
  · obtain ⟨ho, hs2, hw⟩ := hmiss hob
    subst hs2
    refine ⟨rfl, ?_, ?_, ?_, ?_⟩
    · intro q i j hq
      simp only []
      rw [getD_set]
      by_cases hqp : player_id = q
      · subst hqp
        rw [if_pos ⟨rfl, by omega⟩, updateGrid_eval, if_neg (by tauto)]
      · rw [if_neg (by tauto)]
    · intro q i j hq
      simp only []
      rw [getD_set]
      by_cases hqp : 1 - player_id = q
      · subst hqp
        rw [if_pos ⟨rfl, by omega⟩, updateGrid_eval, if_neg (by tauto)]
      · rw [if_neg (by tauto)]
    · simp only []
      rw [getD_set, if_pos ⟨rfl, by omega⟩, updateGrid_eval, if_pos ⟨rfl, rfl⟩, htb]
      decide
    · simp only []
      rw [getD_set, if_pos ⟨rfl, by omega⟩, updateGrid_eval, if_pos ⟨rfl, rfl⟩, hob]
      decide
  · obtain ⟨ho, hs2, hw⟩ := hhit hob
    subst hs2
    refine ⟨rfl, ?_, ?_, ?_, ?_⟩
    · intro q i j hq
      simp only []
      rw [getD_set]
      by_cases hqp : player_id = q
      · subst hqp
        rw [if_pos ⟨rfl, by omega⟩, updateGrid_eval, if_neg (by tauto)]
      · rw [if_neg (by tauto)]
    · intro q i j hq
      simp only []
      rw [getD_set]
      by_cases hqp : 1 - player_id = q
      · subst hqp
        rw [if_pos ⟨rfl, by omega⟩, updateGrid_eval, if_neg (by tauto)]
      · rw [if_neg (by tauto)]
    · simp only []
      rw [getD_set, if_pos ⟨rfl, by omega⟩, updateGrid_eval, if_pos ⟨rfl, rfl⟩, htb]
      decide
    · simp only []
      rw [getD_set, if_pos ⟨rfl, by omega⟩, updateGrid_eval, if_pos ⟨rfl, rfl⟩]
      intro hcon
      exact hX hcon.symm

/-- Witness for C9: the hit at [A4] leaves the shooter own-grid cell at
(0,4) unchanged while the opponent grid cell at (0,4) does change. -/
theorem step_shot_frame_witness :
    ((step 10 0 ("[A4]".toList) wStateA).2.board.getD 0 emptyGrid) 0 4
      = wStateA.board.getD 0 emptyGrid 0 4
    ∧ ((step 10 0 ("[A4]".toList) wStateA).2.board.getD 1 emptyGrid) 0 4
      ≠ wStateA.board.getD 1 emptyGrid 0 4 := by
  have h : step 10 0 ("[A4]".toList) wStateA
      = (StepResult.shot 0 4 ShotOutcome.hit false, (step 10 0 ("[A4]".toList) wStateA).2) := rfl
  have hf := step_shot_frame 10 0 ("[A4]".toList) wStateA 0 4 ShotOutcome.hit false _
    (by decide) (by rfl) (by rfl) (by decide) h
  exact ⟨hf.2.2.1 0 0 4 (by decide), hf.2.2.2.2⟩

theorem markCells_cons (g : Grid) (L : Char) (c0 : Nat × Nat) (cs : List (Nat × Nat)) :
    markCells g L (c0 :: cs) = markCells (updateGrid g c0.1 c0.2 L) L cs := rfl

theorem except_bind_ok {e a b : Type} (x : a) (f : a → Except e b) :
    (Except.ok x >>= f) = f x := rfl

theorem except_bind_error {e a b : Type} (err : e) (f : a → Except e b) :
    ((Except.error err : Except e a) >>= f) = Except.error err := rfl

theorem place_ship_ok_spec (g : Grid) (name : String) (len : Nat) (stream : Nat → Attempt) :
    ∀ (fuel k : Nat) (g2 : Grid) (cells : List (Nat × Nat)),
    place_ship_on_board g name len stream k fuel = Except.ok (g2, cells) →
    ∃ kk, fits g len (stream kk) = true ∧ cells = placeCells len (stream kk)
      ∧ g2 = markCells g (headLetter name) cells := by
  intro fuel
  induction fuel with
  | zero =>
    intro k g2 cells h
    exact Except.noConfusion h
  | succ fuel2 ih =>
    intro k g2 cells h
    unfold place_ship_on_board at h
    by_cases hf : fits g len (stream k) = true
    · rw [if_pos hf] at h
      injection h with h1
      injection h1 with hg hc
      refine ⟨k, hf, hc.symm, ?_⟩
      rw [← hg, hc]
    · rw [if_neg hf] at h
      exact ih (k + 1) g2 cells h

theorem place_ship_error_of_unfit (g : Grid) (name : String) (len : Nat)
    (stream : Nat → Attempt) :
    ∀ (fuel k : Nat), (∀ m, m < fuel → fits g len (stream (k + m)) = false) →
    place_ship_on_board g name len stream k fuel
      = Except.error ("Could not place ship " ++ name ++ " after 100 attempts") := by
  intro fuel
  induction fuel with
  | zero => intro k h; rfl
  | succ fuel2 ih =>
    intro k h
    unfold place_ship_on_board
    have h0 : fits g len (stream k) = false := by
      have := h 0 (by omega)
      simpa using this
    rw [if_neg (by simp [h0])]
    apply ih
    intro m hm
    have := h (m + 1) (by omega)
    rw [show k + (m + 1) = k + 1 + m by omega] at this
    exact this

theorem markCells_mem (L : Char) (i j : Nat) :
    ∀ (cells : List (Nat × Nat)) (g : Grid),
    ((i, j) ∈ cells → markCells g L cells i j = L)
    ∧ ((i, j) ∉ cells → markCells g L cells i j = g i j) := by
  intro cells
  induction cells with
  | nil =>
    intro g
    exact ⟨fun h => absurd h (List.not_mem_nil _), fun _ => rfl⟩
  | cons c0 cs ih =>
    intro g
    constructor
    · intro hmem
      rw [markCells_cons]
      rcases List.mem_cons.mp hmem with he | hm
      · by_cases hcs : (i, j) ∈ cs
        · exact (ih (updateGrid g c0.1 c0.2 L)).1 hcs
        · rw [(ih (updateGrid g c0.1 c0.2 L)).2 hcs, updateGrid_eval,
            if_pos (by subst he; exact ⟨rfl, rfl⟩)]
      · exact (ih (updateGrid g c0.1 c0.2 L)).1 hm
    · intro hnmem
      have hne : (i, j) ≠ c0 := fun he => hnmem (List.mem_cons.mpr (Or.inl he))
      have hncs : (i, j) ∉ cs := fun hm => hnmem (List.mem_cons.mpr (Or.inr hm))
      rw [markCells_cons, (ih (updateGrid g c0.1 c0.2 L)).2 hncs, updateGrid_eval,
        if_neg ?hne2]
      case hne2 =>
        intro hc
        apply hne
        cases c0
        simp at hc ⊢
        exact ⟨hc.1, hc.2⟩

theorem placeCells_length (len : Nat) (a : Attempt) : (placeCells len a).length = len := by
  unfold placeCells
  split <;> simp

theorem placeCells_line (len : Nat) (a : Attempt) : isLinePlacement len (placeCells len a) := by
  unfold placeCells isLinePlacement
  by_cases h : a.horizontal
  · exact ⟨a.row, a.col, Or.inl (by rw [if_pos h])⟩
  · exact ⟨a.row, a.col, Or.inr (by rw [if_neg h])⟩

theorem placeCells_bounds (N len : Nat) (a : Attempt) (hv : ValidAttempt N len a) :
    inBoundsCells N (placeCells len a) := by
  unfold ValidAttempt at hv
  unfold inBoundsCells placeCells
  by_cases h : a.horizontal
  · rw [if_pos h] at hv ⊢
    intro p hp
    simp only [List.mem_map, List.mem_range] at hp
    obtain ⟨i, hi, rfl⟩ := hp
    exact ⟨hv.1, by omega⟩
  · rw [if_neg h] at hv ⊢
    intro p hp
    simp only [List.mem_map, List.mem_range] at hp
    obtain ⟨i, hi, rfl⟩ := hp
    exact ⟨by omega, hv.2⟩

theorem fits_cells (g : Grid) (len : Nat) (a : Attempt) (h : fits g len a = true) :
    ∀ p ∈ placeCells len a, g p.1 p.2 = '~' := by
  unfold fits at h
  unfold placeCells
  by_cases hh : a.horizontal
  · rw [if_pos hh] at h ⊢
    intro p hp
    simp only [List.mem_map, List.mem_range] at hp
    obtain ⟨i, hi, rfl⟩ := hp
    have := (List.all_eq_true.mp h) i (List.mem_range.mpr hi)
    simpa using this
  · rw [if_neg hh] at h ⊢
    intro p hp
    simp only [List.mem_map, List.mem_range] at hp
    obtain ⟨i, hi, rfl⟩ := hp
    have := (List.all_eq_true.mp h) i (List.mem_range.mpr hi)
    simpa using this

theorem placeFleet_names (stream : Nat → Nat → Attempt) :
    ∀ (fleet : List (String × Nat)) (g : Grid) (si : Nat) (g2 : Grid)
      (pls : List (String × List (Nat × Nat))),
    placeFleet g fleet stream si = Except.ok (g2, pls) →
    pls.map Prod.fst = fleet.map Prod.fst := by
  intro fleet
  induction fleet with
  | nil =>
    intro g si g2 pls h
    injection h with h1
    injection h1 with hg hp
    rw [← hp]
    rfl
  | cons e rest ih =>
    intro g si g2 pls h
    rcases e with ⟨name, len⟩
    unfold placeFleet at h
    rcases hps : place_ship_on_board g name len (stream si) 0 max_attempts with e0 | v0
    · rw [hps] at h
      exact Except.noConfusion h
    · rw [hps, except_bind_ok] at h
      rcases hpf : placeFleet v0.1 rest stream (si + 1) with e1 | v1
      · rw [hpf] at h
        exact Except.noConfusion h
      · rw [hpf, except_bind_ok] at h
        injection h with h1
        injection h1 with hg hp
        rw [← hp]
        simp only [List.map_cons]
        rw [ih v0.1 (si + 1) v1.1 v1.2 (by rw [hpf])]

theorem placeFleet_spec (N : Nat) (stream : Nat → Nat → Attempt) :
    ∀ (fleet : List (String × Nat)) (g : Grid) (si : Nat) (g2 : Grid)
      (pls : List (String × List (Nat × Nat))),
    placeFleet g fleet stream si = Except.ok (g2, pls) →
    (∀ idx k, idx < fleet.length →
        ValidAttempt N ((fleet.getD idx ("", 0)).2) (stream (si + idx) k)) →
    (∀ e ∈ fleet, headLetter e.1 ≠ '~') →
    pls.length = fleet.length
    ∧ (∀ idx, idx < pls.length →
        ((pls.getD idx ("", [])).2.length = (fleet.getD idx ("", 0)).2
         ∧ isLinePlacement ((fleet.getD idx ("", 0)).2) ((pls.getD idx ("", [])).2)
         ∧ inBoundsCells N ((pls.getD idx ("", [])).2)
         ∧ ∀ p ∈ (pls.getD idx ("", [])).2, g p.1 p.2 = '~'))
    ∧ (∀ i1 i2, i1 < i2 → i2 < pls.length →
        ∀ p ∈ (pls.getD i1 ("", [])).2, p ∉ (pls.getD i2 ("", [])).2) := by
  intro fleet
  induction fleet with
  | nil =>
    intro g si g2 pls h hv hlet
    injection h with h1
    injection h1 with hg hp
    rw [← hp]
    refine ⟨rfl, ?_, ?_⟩
    · intro idx hidx
      simp at hidx
    · intro i1 i2 h12 hi2
      simp at hi2
  | cons e rest ih =>
    intro g si g2 pls h hv hlet
    rcases e with ⟨name, len⟩
    unfold placeFleet at h
    rcases hps : place_ship_on_board g name len (stream si) 0 max_attempts with e0 | ⟨g1, cells0⟩
    · rw [hps] at h
      exact Except.noConfusion h
    · rw [hps, except_bind_ok] at h
      rcases hpf : placeFleet g1 rest stream (si + 1) with e1 | ⟨gf, pls2⟩
      · rw [hpf] at h
        exact Except.noConfusion h
      · rw [hpf, except_bind_ok] at h
        injection h with h1
        injection h1 with hg hp
        obtain ⟨kk, hfit, hcells0, hg1⟩ :=
          place_ship_ok_spec g name len (stream si) max_attempts 0 g1 cells0 hps
        have hv0 : ValidAttempt N len (stream si kk) := hv 0 kk (by simp)
        have hvr : ∀ idx k, idx < rest.length →
            ValidAttempt N ((rest.getD idx ("", 0)).2) (stream (si + 1 + idx) k) := by
          intro idx k hidx
          have h2 := hv (idx + 1) k (by simp; omega)
          rw [show si + (idx + 1) = si + 1 + idx by omega] at h2
          exact h2
        have hletr : ∀ e ∈ rest, headLetter e.1 ≠ '~' :=
          fun e he => hlet e (List.mem_cons.mpr (Or.inr he))
        obtain ⟨ihlen, ihprops, ihdisj⟩ := ih g1 (si + 1) gf pls2 hpf hvr hletr
        have hlet0 : headLetter name ≠ '~' := hlet (name, len) (List.mem_cons_self _ _)
        have hfree0 : ∀ p ∈ cells0, g p.1 p.2 = '~' := by
          rw [hcells0]
          exact fits_cells g len (stream si kk) hfit
        have hocc0 : ∀ p ∈ cells0, g1 p.1 p.2 = headLetter name := by
          intro p hp2
          rw [hg1]
          exact (markCells_mem (headLetter name) p.1 p.2 cells0 g).1 (by
            rcases p with ⟨x, y⟩
            exact hp2)
        rw [← hp]
        refine ⟨by simp [ihlen], ?_, ?_⟩
        · intro idx hidx
          cases idx with
          | zero =>
            refine ⟨by rw [hcells0]; exact placeCells_length len (stream si kk), ?_, ?_, hfree0⟩
            · rw [hcells0]
              exact placeCells_line len (stream si kk)
            · rw [hcells0]
              exact placeCells_bounds N len (stream si kk) hv0
          | succ idx2 =>
            have hidx2 : idx2 < pls2.length := by
              simp at hidx
              omega
            obtain ⟨hl, hline, hbound, hfree⟩ := ihprops idx2 hidx2
            refine ⟨hl, hline, hbound, ?_⟩
            intro p hp2
            have hfg1 := hfree p hp2
            by_cases hpc : (p.1, p.2) ∈ cells0
            · rw [hg1] at hfg1
              have heq := (markCells_mem (headLetter name) p.1 p.2 cells0 g).1 hpc
              rw [heq] at hfg1
              exact absurd hfg1 hlet0
            · have heq := (markCells_mem (headLetter name) p.1 p.2 cells0 g).2 hpc
              rw [hg1] at hfg1
              rw [heq] at hfg1
              exact hfg1
        · intro i1 i2 h12 hi2
          cases i2 with
          | zero => omega
          | succ j =>
            have hj : j < pls2.length := by
              simp at hi2
              omega
            cases i1 with
            | zero =>
              intro p hpmem hpmem2
              have hfreej := (ihprops j hj).2.2.2 p hpmem2
              have hoccp := hocc0 p hpmem
              rw [hoccp] at hfreej
              exact hlet0 hfreej
            | succ i1b =>
              exact ihdisj i1b j (by omega) hj


/-- C3: every successful fleet placement gives each of the 5 catalog ships
exactly its declared length of cells, in one contiguous horizontal or
vertical line, inside the N x N board, and the cell sets of distinct ships
on the same grid are disjoint. -/
theorem generate_boards_placements_valid (N : Nat) (stream : Nat → Nat → Attempt)
    (b t : List Grid) (pl : List (List (String × List (Nat × Nat))))
    (hv : ∀ si k, ValidAttempt N (shipLen si) (stream si k))
    (h : generate_boards stream = Except.ok (b, t, pl)) :
    pl.length = 2
    ∧ ∀ pi, pi < 2 →
        ((pl.getD pi []).map Prod.fst = ships.map Prod.fst)
        ∧ (∀ idx, idx < (pl.getD pi []).length →
            (((pl.getD pi []).getD idx ("", [])).2.length = (ships.getD idx ("", 0)).2
             ∧ isLinePlacement ((ships.getD idx ("", 0)).2)
                 (((pl.getD pi []).getD idx ("", [])).2)
             ∧ inBoundsCells N (((pl.getD pi []).getD idx ("", [])).2)))
        ∧ (∀ i1 i2, i1 ≠ i2 → i1 < (pl.getD pi []).length → i2 < (pl.getD pi []).length →
            ∀ p ∈ ((pl.getD pi []).getD i1 ("", [])).2,
              p ∉ ((pl.getD pi []).getD i2 ("", [])).2) := by
  have hlet : ∀ e ∈ ships, headLetter e.1 ≠ '~' := by decide
  have hmod : ∀ idx, idx < ships.length → idx % 5 = idx := by decide
  unfold generate_boards at h
  rcases h0 : placeFleet emptyGrid ships stream 0 with e0 | ⟨gA, plsA⟩
  · rw [h0] at h
    exact Except.noConfusion h
  · rw [h0, except_bind_ok] at h
    rcases h1 : placeFleet emptyGrid ships stream ships.length with e1 | ⟨gB, plsB⟩
    · rw [h1] at h
      exact Except.noConfusion h
    · rw [h1, except_bind_ok] at h
      injection h with h2
      injection h2 with hb h3
      injection h3 with ht hpl
      have hvA : ∀ idx k, idx < ships.length →
          ValidAttempt N ((ships.getD idx ("", 0)).2) (stream (0 + idx) k) := by
        intro idx k hidx
        have := hv idx k
        unfold shipLen at this
        rw [hmod idx hidx] at this
        rw [Nat.zero_add]
        exact this
      have hvB : ∀ idx k, idx < ships.length →
          ValidAttempt N ((ships.getD idx ("", 0)).2) (stream (ships.length + idx) k) := by
        intro idx k hidx
        have := hv (ships.length + idx) k
        unfold shipLen at this
        have hm2 : (ships.length + idx) % 5 = idx := by
          have h5 : ships.length = 5 := rfl
          rw [h5, Nat.add_mod_left]
          rw [h5] at hidx
          omega
        rw [hm2] at this
        exact this
      obtain ⟨hlenA, hpropsA, hdisjA⟩ :=
        placeFleet_spec N stream ships emptyGrid 0 gA plsA h0 hvA hlet
      obtain ⟨hlenB, hpropsB, hdisjB⟩ :=
        placeFleet_spec N stream ships emptyGrid ships.length gB plsB h1 hvB hlet
      rw [← hpl]
      constructor
      · rfl
      · intro pi hpi
        have hcase : pi = 0 ∨ pi = 1 := by omega
        rcases hcase with hcase | hcase <;> subst hcase
        · refine ⟨placeFleet_names stream ships emptyGrid 0 gA plsA h0, ?_, ?_⟩
          · intro idx hidx
            exact (hpropsA idx hidx).2.2.1 |> fun hbb =>
              ⟨(hpropsA idx hidx).1, (hpropsA idx hidx).2.1, hbb⟩
          · intro i1 i2 hne hi1 hi2 p hp1 hp2
            rcases Nat.lt_or_ge i1 i2 with hlt | hge
            · exact hdisjA i1 i2 hlt hi2 p hp1 hp2
            · have hlt2 : i2 < i1 := by omega
              exact hdisjA i2 i1 hlt2 hi1 p hp2 hp1
        · refine ⟨placeFleet_names stream ships emptyGrid ships.length gB plsB h1, ?_, ?_⟩
          · intro idx hidx
            exact (hpropsB idx hidx).2.2.1 |> fun hbb =>
              ⟨(hpropsB idx hidx).1, (hpropsB idx hidx).2.1, hbb⟩
          · intro i1 i2 hne hi1 hi2 p hp1 hp2
            rcases Nat.lt_or_ge i1 i2 with hlt | hge
            · exact hdisjB i1 i2 hlt hi2 p hp1 hp2
            · have hlt2 : i2 < i1 := by omega
              exact hdisjB i2 i1 hlt2 hi1 p hp2 hp1

/-- Witness for C3: the concrete draw stream places both full fleets. -/
theorem generate_boards_placements_valid_witness :
    wState.ship_placements.length = 2
    ∧ (wState.ship_placements.getD 0 []).map Prod.fst = ships.map Prod.fst := by
  have hv : ∀ si k, ValidAttempt 10 (shipLen si) (wStream si k) := by
    have hlen : ∀ m, m < 5 → (ships.getD m ("", 0)).2 ≤ 10 := by decide
    intro si k
    have hm : si % 5 < 5 := Nat.mod_lt si (by omega)
    unfold wStream ValidAttempt shipLen
    simp only [if_pos]
    exact ⟨by omega, by have := hlen (si % 5) hm; omega⟩
  have h := generate_boards_placements_valid 10 wStream wState.board wState.tracking_board
      wState.ship_placements hv (by rfl)
  exact ⟨h.1, (h.2 0 (by omega)).1⟩


/-- C8: exhausting the 100-attempt retry cap raises an unrecoverable
error, and board generation never produces a partial fleet: a successful
result always lists all five catalog ships for both players. -/
theorem placement_retry_exhaustion_fatal :
    (∀ (g : Grid) (name : String) (len : Nat) (stream : Nat → Attempt),
       (∀ k, k < max_attempts → fits g len (stream k) = false) →
       place_ship_on_board g name len stream 0 max_attempts
         = Except.error ("Could not place ship " ++ name ++ " after 100 attempts"))
    ∧ (∀ (stream : Nat → Nat → Attempt) (b t : List Grid)
         (pl : List (List (String × List (Nat × Nat)))),
        generate_boards stream = Except.ok (b, t, pl) →
        pl.length = 2 ∧ ∀ pi, pi < 2 →
          (pl.getD pi []).map Prod.fst = ships.map Prod.fst) := by
  constructor
  · intro g name len stream h
    apply place_ship_error_of_unfit
    intro m hm
    rw [Nat.zero_add]
    exact h m hm
  · intro stream b t pl h
    unfold generate_boards at h
    rcases h0 : placeFleet emptyGrid ships stream 0 with e0 | ⟨gA, plsA⟩
    · rw [h0] at h
      exact Except.noConfusion h
    · rw [h0, except_bind_ok] at h
      rcases h1 : placeFleet emptyGrid ships stream ships.length with e1 | ⟨gB, plsB⟩
      · rw [h1] at h
        exact Except.noConfusion h
      · rw [h1, except_bind_ok] at h
        injection h with h2
        injection h2 with hb h3
        injection h3 with ht hpl
        rw [← hpl]
        refine ⟨rfl, ?_⟩
        intro pi hpi
        have hcase : pi = 0 ∨ pi = 1 := by omega
        rcases hcase with hcase | hcase <;> subst hcase
        · exact placeFleet_names stream ships emptyGrid 0 gA plsA h0
        · exact placeFleet_names stream ships emptyGrid ships.length gB plsB h1

/-- Witness for C8: on a fully occupied grid every attempt fails and
placing a ship reports the fatal error after 100 attempts. -/
theorem placement_retry_exhaustion_fatal_witness :
    place_ship_on_board wFullGrid "Battleship" 4 (fun _ => ⟨true, 0, 0⟩) 0 max_attempts
      = Except.error ("Could not place ship " ++ "Battleship" ++ " after 100 attempts")
    ∧ (wState.ship_placements.getD 0 []).map Prod.fst = ships.map Prod.fst := by
  constructor
  · exact placement_retry_exhaustion_fatal.1 wFullGrid "Battleship" 4
      (fun _ => ⟨true, 0, 0⟩) (by decide)
  · exact (placement_retry_exhaustion_fatal.2 wStream wState.board wState.tracking_board
      wState.ship_placements (by rfl)).2 0 (by omega)

/-- C10: reset builds a two-player match no matter what num_players value
it receives: the result is identical to resetting with 2 and has exactly 2
players, 2 grids, 2 tracking grids and 2 placement maps, with every
tracking cell unknown. -/
theorem reset_two_players (num_players : Nat) (stream : Nat → Nat → Attempt) :
    reset num_players stream = reset 2 stream
    ∧ ∀ st, reset num_players stream = Except.ok st →
        st.num_players = 2 ∧ st.board.length = 2 ∧ st.tracking_board.length = 2
        ∧ st.ship_placements.length = 2
        ∧ ∀ g ∈ st.tracking_board, ∀ i j, g i j = '~' := by
  refine ⟨rfl, ?_⟩
  intro st h
  unfold reset generate_boards at h
  rcases h0 : placeFleet emptyGrid ships stream 0 with e0 | v0
  · rw [h0] at h
    exact Except.noConfusion h
  · rw [h0] at h
    rcases h1 : placeFleet emptyGrid ships stream ships.length with e1 | v1
    · rw [h1] at h
      exact Except.noConfusion h
    · rw [h1] at h
      injection h with h2
      subst h2
      refine ⟨rfl, rfl, rfl, rfl, ?_⟩
      intro g hg i j
      simp only [List.mem_cons, List.mem_singleton] at hg
      rcases hg with hg | hg | hg
      · rw [hg]; rfl
      · rw [hg]; rfl
      · simp at hg

/-- Witness for C10: resetting with num_players = 7 still builds the
two-player state. -/
theorem reset_two_players_witness :
    wState.num_players = 2 ∧ wState.board.length = 2 ∧ wState.tracking_board.length = 2
    ∧ wState.ship_placements.length = 2
    ∧ ∀ g ∈ wState.tracking_board, ∀ i j, g i j = '~' :=
  (reset_two_players 7 wStream).2 wState (by rfl)

theorem scanAny_false_iff (g : Grid) (N : Nat) (L : Char) :
    scanAny g N L = false ↔ ∀ i, i < N → ∀ j, j < N → g i j ≠ L := by
  unfold scanAny
  rw [← Bool.not_eq_true]
  simp [List.any_eq_true, List.mem_range]

theorem sunkOf_eq_some {res : StepResult} {L : Char} (h : sunkOf res = some L) :
    ∃ r c win, res = StepResult.shot r c (ShotOutcome.sunk L) win := by
  cases res with
  | invalidNoCoord => simp [sunkOf] at h
  | invalidOutside => simp [sunkOf] at h
  | invalidAlreadyFired => simp [sunkOf] at h
  | shot r c out win =>
    cases out with
    | miss => simp [sunkOf] at h
    | hit => simp [sunkOf] at h
    | sunk L2 =>
      simp [sunkOf] at h
      exact ⟨r, c, win, by rw [h]⟩

theorem step_cases (N pid : Nat) (a : List Char) (s : MatchState) :
    (step N pid a s).2 = s
    ∨ ∃ r c out win, step N pid a s = (StepResult.shot r c out win, (step N pid a s).2) := by
  unfold step
  rcases hfind : findCoord a with _ | ⟨letter, col⟩
  · left; rfl
  · simp only
    by_cases h1 : N ≤ rowIdx letter ∨ N ≤ col
    · rw [if_pos h1]; left; rfl
    · rw [if_neg h1]
      by_cases h2 : (s.tracking_board.getD pid emptyGrid) (rowIdx letter) col ≠ '~'
      · rw [if_pos h2]; left; rfl
      · rw [if_neg h2]
        by_cases h3 : (s.board.getD (1 - pid) emptyGrid) (rowIdx letter) col ≠ '~'
        · rw [if_pos h3]
          right
          exact ⟨rowIdx letter, col, _, _, rfl⟩
        · rw [if_neg h3]
          right
          exact ⟨rowIdx letter, col, _, _, rfl⟩

theorem step_lengths (N pid : Nat) (a : List Char) (s : MatchState) :
    (step N pid a s).2.board.length = s.board.length
    ∧ (step N pid a s).2.tracking_board.length = s.tracking_board.length := by
  rcases step_cases N pid a s with heq | ⟨r, c, out, win, heq⟩
  · rw [heq]
    exact ⟨rfl, rfl⟩
  · obtain ⟨letter, hfind, hr, hrN, hcN, htb, hmiss, hhit⟩ := step_shot_inv heq
    by_cases hob : s.board.getD (1 - pid) emptyGrid r c = '~'
    · obtain ⟨_, hs2, _⟩ := hmiss hob
      rw [hs2]
      exact ⟨by simp, by simp⟩
    · obtain ⟨_, hs2, _⟩ := hhit hob
      rw [hs2]
      exact ⟨by simp, by simp⟩


theorem step_sunk_facts (N pid : Nat) (a : List Char) (s : MatchState)
    (r c : Nat) (L : Char) (win : Bool) (s2 : MatchState)
    (hb2 : s.board.length = 2)
    (h : step N pid a s = (StepResult.shot r c (ShotOutcome.sunk L) win, s2)) :
    s.board.getD (1 - pid) emptyGrid r c = L ∧ r < N ∧ c < N
    ∧ scanAny (s2.board.getD (1 - pid) emptyGrid) N L = false := by
  obtain ⟨letter, hfind, hr, hrN, hcN, htb, hmiss, hhit⟩ := step_shot_inv h
  by_cases hob : s.board.getD (1 - pid) emptyGrid r c = '~'
  · obtain ⟨ho, _, _⟩ := hmiss hob
    exact absurd ho (by simp)
  · obtain ⟨ho, hs2, hw⟩ := hhit hob
    rcases hsc : scanAny (updateGrid (s.board.getD (1 - pid) emptyGrid) r c 'X') N
        (s.board.getD (1 - pid) emptyGrid r c) with _ | _
    · rw [if_pos hsc] at ho
      injection ho with hL
      subst hL
      refine ⟨rfl, hrN, hcN, ?_⟩
      rw [hs2]
      simp only []
      rw [getD_set, if_pos ⟨rfl, by omega⟩]
      exact hsc
    · rw [if_neg (by rw [hsc]; simp)] at ho
      exact absurd ho (by simp)


theorem step_no_letter_preserved (N pid : Nat) (a : List Char) (s : MatchState)
    (q : Nat) (L : Char) (hLX : L ≠ 'X') (hLO : L ≠ 'O')
    (hscan : scanAny (s.board.getD q emptyGrid) N L = false) :
    scanAny ((step N pid a s).2.board.getD q emptyGrid) N L = false := by
  rcases step_cases N pid a s with heq | ⟨r, c, out, win, heq⟩
  · rw [heq]
    exact hscan
  · obtain ⟨letter, hfind, hr, hrN, hcN, htb, hmiss, hhit⟩ := step_shot_inv heq
    rw [scanAny_false_iff] at hscan ⊢
    intro i hi j hj
    have hgen : ∀ (m : Char), m ≠ L →
        (step N pid a s).2 = { s with
          tracking_board := s.tracking_board.set pid
            (updateGrid (s.tracking_board.getD pid emptyGrid) r c m),
          board := s.board.set (1 - pid)
            (updateGrid (s.board.getD (1 - pid) emptyGrid) r c m) } →
        ({ s with
          tracking_board := s.tracking_board.set pid
            (updateGrid (s.tracking_board.getD pid emptyGrid) r c m),
          board := s.board.set (1 - pid)
            (updateGrid (s.board.getD (1 - pid) emptyGrid) r c m) } :
          MatchState).board.getD q emptyGrid i j ≠ L := by
      intro m hm hs2
      simp only []
      rw [getD_set]
      by_cases h4 : 1 - pid = q ∧ q < s.board.length
      · rw [if_pos h4, updateGrid_eval]
        by_cases h5 : i = r ∧ j = c
        · rw [if_pos h5]
          exact hm
        · rw [if_neg h5, h4.1]
          exact hscan i hi j hj
      · rw [if_neg h4]
        exact hscan i hi j hj
    by_cases hob : s.board.getD (1 - pid) emptyGrid r c = '~'
    · obtain ⟨ho, hs2, hw⟩ := hmiss hob
      rw [hs2]
      exact hgen 'O' (fun hc2 => hLO hc2.symm) hs2
    · obtain ⟨ho, hs2, hw⟩ := hhit hob
      rw [hs2]
      exact hgen 'X' (fun hc2 => hLX hc2.symm) hs2


theorem run_no_sunk (N p : Nat) (L : Char) (hLX : L ≠ 'X') (hLO : L ≠ 'O') :
    ∀ (acts : List (Nat × List Char)) (s : MatchState),
    scanAny (s.board.getD (1 - p) emptyGrid) N L = false →
    s.board.length = 2 →
    ∀ i, (acts.getD i (0, [])).1 = p →
      sunkOf ((runResults N s acts).getD i StepResult.invalidNoCoord) ≠ some L := by
  intro acts
  induction acts with
  | nil =>
    intro s hscan hb i hp hsunk
    simp [runResults, List.getD] at hsunk
    cases hsunk
  | cons a rest ih =>
    intro s hscan hb i hp hsunk
    cases i with
    | zero =>
      have hres : (runResults N s (a :: rest)).getD 0 StepResult.invalidNoCoord
          = (step N a.1 a.2 s).1 := rfl
      rw [hres] at hsunk
      obtain ⟨r, c, win, hshot⟩ := sunkOf_eq_some hsunk
      have heq : step N a.1 a.2 s
          = (StepResult.shot r c (ShotOutcome.sunk L) win, (step N a.1 a.2 s).2) := by
        have hpair : step N a.1 a.2 s = ((step N a.1 a.2 s).1, (step N a.1 a.2 s).2) := rfl
        rw [hpair, hshot]
      have hp0 : a.1 = p := hp
      rw [hp0] at heq
      obtain ⟨hcell, hrN, hcN, _⟩ := step_sunk_facts N p a.2 s r c L win _ hb heq
      rw [scanAny_false_iff] at hscan
      exact hscan r hrN c hcN hcell
    | succ i2 =>
      have hres : (runResults N s (a :: rest)).getD (i2 + 1) StepResult.invalidNoCoord
          = (runResults N (step N a.1 a.2 s).2 rest).getD i2 StepResult.invalidNoCoord := rfl
      rw [hres] at hsunk
      exact ih (step N a.1 a.2 s).2
        (step_no_letter_preserved N a.1 a.2 s (1 - p) L hLX hLO hscan)
        (by rw [(step_lengths N a.1 a.2 s).1]; exact hb)
        i2 hp hsunk

theorem run_sunk_aux (N p : Nat) (L : Char) (hLX : L ≠ 'X') (hLO : L ≠ 'O') :
    ∀ (acts : List (Nat × List Char)) (s : MatchState),
    s.board.length = 2 →
    ∀ i j, i < j → (acts.getD i (0, [])).1 = p → (acts.getD j (0, [])).1 = p →
    sunkOf ((runResults N s acts).getD i StepResult.invalidNoCoord) = some L →
    sunkOf ((runResults N s acts).getD j StepResult.invalidNoCoord) = some L → False := by
  intro acts
  induction acts with
  | nil =>
    intro s hb i j hij hpi hpj hsi hsj
    simp [runResults, List.getD] at hsi
    cases hsi
  | cons a rest ih =>
    intro s hb i j hij hpi hpj hsi hsj
    cases i with
    | zero =>
      cases j with
      | zero => omega
      | succ j2 =>
        have hres : (runResults N s (a :: rest)).getD 0 StepResult.invalidNoCoord
            = (step N a.1 a.2 s).1 := rfl
        rw [hres] at hsi
        obtain ⟨r, c, win, hshot⟩ := sunkOf_eq_some hsi
        have heq : step N a.1 a.2 s
            = (StepResult.shot r c (ShotOutcome.sunk L) win, (step N a.1 a.2 s).2) := by
          have hpair : step N a.1 a.2 s = ((step N a.1 a.2 s).1, (step N a.1 a.2 s).2) := rfl
          rw [hpair, hshot]
        have hp0 : a.1 = p := hpi
        rw [hp0] at heq
        obtain ⟨hcell, hrN, hcN, hafter⟩ := step_sunk_facts N p a.2 s r c L win _ hb heq
        have hres2 : (runResults N s (a :: rest)).getD (j2 + 1) StepResult.invalidNoCoord
            = (runResults N (step N p a.2 s).2 rest).getD j2 StepResult.invalidNoCoord := by
          rw [← hp0]
          rfl
        rw [hres2] at hsj
        exact run_no_sunk N p L hLX hLO rest (step N p a.2 s).2 hafter
          (by rw [(step_lengths N p a.2 s).1]; exact hb) j2 hpj hsj
    | succ i2 =>
      cases j with
      | zero => omega
      | succ j2 =>
        have hres : ∀ m, (runResults N s (a :: rest)).getD (m + 1) StepResult.invalidNoCoord
            = (runResults N (step N a.1 a.2 s).2 rest).getD m StepResult.invalidNoCoord :=
          fun m => rfl
        rw [hres i2] at hsi
        rw [hres j2] at hsj
        exact ih (step N a.1 a.2 s).2
          (by rw [(step_lengths N a.1 a.2 s).1]; exact hb)
          i2 j2 (by omega) hpi hpj hsi hsj

/-- C7: over any sequence of step calls, a sunk notification for a given
ship (its owner fixed by the shooter, its identity by its letter) is
emitted on at most one shot: the one that removes the letter's last
occurrence. -/
theorem sunk_at_most_once (N : Nat) (s : MatchState) (acts : List (Nat × List Char))
    (p : Nat) (L : Char) (hL : L ∈ shipInitials) (hb : s.board.length = 2) :
    ∀ i j, (acts.getD i (0, [])).1 = p → (acts.getD j (0, [])).1 = p →
      sunkOf ((runResults N s acts).getD i StepResult.invalidNoCoord) = some L →
      sunkOf ((runResults N s acts).getD j StepResult.invalidNoCoord) = some L →
      i = j := by
  have hL2 : L ≠ 'X' ∧ L ≠ 'O' := by
    have hlist : shipInitials = ['A', 'B', 'S', 'D', 'P'] := rfl
    rw [hlist] at hL
    fin_cases hL <;> exact ⟨by decide, by decide⟩
  intro i j hpi hpj hsi hsj
  rcases Nat.lt_trichotomy i j with hlt | heq | hgt
  · exact absurd (run_sunk_aux N p L hL2.1 hL2.2 acts s hb i j hlt hpi hpj hsi hsj) id
  · exact heq
  · exact absurd (run_sunk_aux N p L hL2.1 hL2.2 acts s hb j i hgt hpj hpi hsj hsi) id

/-- Witness for C7: the shot that sinks the single-cell Patrol Boat
reports sunk, and the theorem applies to that run. -/
theorem sunk_at_most_once_witness :
    sunkOf ((runResults 10 wStateP [(0, "[C2]".toList)]).getD 0 StepResult.invalidNoCoord)
      = some 'P'
    ∧ (0 : Nat) = 0 :=
  ⟨rfl,
  sunk_at_most_once 10 wStateP [(0, "[C2]".toList)] 0 'P' (by decide) (by rfl)
    0 0 (by rfl) (by rfl) (by rfl) (by rfl)⟩


theorem markCells_unmarked (g : Grid) (L : Char) (cells : List (Nat × Nat))
    (hL : ¬ marked L) (hg : UnmarkedGrid g) : UnmarkedGrid (markCells g L cells) := by
  intro i j
  by_cases hm : (i, j) ∈ cells
  · rw [(markCells_mem L i j cells g).1 hm]
    exact hL
  · rw [(markCells_mem L i j cells g).2 hm]
    exact hg i j

theorem placeFleet_unmarked (stream : Nat → Nat → Attempt) :
    ∀ (fleet : List (String × Nat)) (g : Grid) (si : Nat) (g2 : Grid)
      (pls : List (String × List (Nat × Nat))),
    placeFleet g fleet stream si = Except.ok (g2, pls) →
    (∀ e ∈ fleet, ¬ marked (headLetter e.1)) →
    UnmarkedGrid g → UnmarkedGrid g2 := by
  intro fleet
  induction fleet with
  | nil =>
    intro g si g2 pls h hfl hg
    injection h with h1
    injection h1 with hgg hp
    rw [← hgg]
    exact hg
  | cons e rest ih =>
    intro g si g2 pls h hfl hg
    rcases e with ⟨name, len⟩
    unfold placeFleet at h
    rcases hps : place_ship_on_board g name len (stream si) 0 max_attempts with e0 | ⟨g1, cells0⟩
    · rw [hps] at h
      exact Except.noConfusion h
    · rw [hps, except_bind_ok] at h
      rcases hpf : placeFleet g1 rest stream (si + 1) with e1 | ⟨gf, pls2⟩
      · rw [hpf] at h
        exact Except.noConfusion h
      · rw [hpf, except_bind_ok] at h
        injection h with h1
        injection h1 with hgg hp
        rw [← hgg]
        obtain ⟨kk, _, _, hmark⟩ :=
          place_ship_ok_spec g name len (stream si) max_attempts 0 g1 cells0 hps
        have hg1 : UnmarkedGrid g1 := by
          rw [hmark]
          exact markCells_unmarked g (headLetter name) cells0
            (hfl (name, len) (List.mem_cons_self _ _)) hg
        exact ih g1 (si + 1) gf pls2 hpf
          (fun e2 he2 => hfl e2 (List.mem_cons.mpr (Or.inr he2))) hg1

theorem inv_of_reset (N n : Nat) (stream : Nat → Nat → Attempt) (st : MatchState)
    (h : reset n stream = Except.ok st) : Inv N st := by
  have hships : ∀ e ∈ ships, ¬ marked (headLetter e.1) := by decide
  have hempty : UnmarkedGrid emptyGrid := by
    intro i j
    exact (by decide : ¬ marked '~')
  unfold reset generate_boards at h
  rcases h0 : placeFleet emptyGrid ships stream 0 with e0 | ⟨gA, plsA⟩
  · rw [h0] at h
    exact Except.noConfusion h
  · rw [h0] at h
    rcases h1 : placeFleet emptyGrid ships stream ships.length with e1 | ⟨gB, plsB⟩
    · rw [h1] at h
      exact Except.noConfusion h
    · rw [h1] at h
      injection h with h2
      subst h2
      have hunA : UnmarkedGrid gA :=
        placeFleet_unmarked stream ships emptyGrid 0 gA plsA h0 hships hempty
      have hunB : UnmarkedGrid gB :=
        placeFleet_unmarked stream ships emptyGrid ships.length gB plsB h1 hships hempty
      refine ⟨rfl, rfl, ?_⟩
      intro p hp i j
      have htrack : ∀ pp : Nat, ([emptyGrid, emptyGrid] : List Grid).getD pp emptyGrid = emptyGrid := by
        intro pp
        match pp with
        | 0 => rfl
        | 1 => rfl
        | _ + 2 => rfl
      have hboard : ∀ pp : Nat, ¬ marked (([gA, gB] : List Grid).getD pp emptyGrid i j) := by
        intro pp
        match pp with
        | 0 => exact hunA i j
        | 1 => exact hunB i j
        | _ + 2 => exact (by decide : ¬ marked '~')
      constructor
      · intro h1b h2b
        rw [htrack p]
        exact Or.inl ⟨rfl, hboard (1 - p)⟩
      · intro hcon
        rw [htrack p]
        exact ⟨rfl, hboard (1 - p)⟩


theorem inv_shot_update (N : Nat) (s : MatchState) (player_id r c : Nat) (m : Char)
    (hp2 : player_id < 2) (hm : marked m) (hrN : r < N) (hcN : c < N)
    (hinv : Inv N s) :
    Inv N { s with
      tracking_board := s.tracking_board.set player_id
        (updateGrid (s.tracking_board.getD player_id emptyGrid) r c m),
      board := s.board.set (1 - player_id)
        (updateGrid (s.board.getD (1 - player_id) emptyGrid) r c m) } := by
  obtain ⟨hb, ht, hcells⟩ := hinv
  refine ⟨by simp [hb], by simp [ht], ?_⟩
  intro p hp i j
  simp only []
  rw [getD_set, getD_set]
  by_cases hpq : p = player_id
  · subst hpq
    rw [if_pos ⟨rfl, by omega⟩, if_pos ⟨rfl, by omega⟩]
    by_cases hij : i = r ∧ j = c
    · obtain ⟨hir, hjc⟩ := hij
      subst hir
      subst hjc
      constructor
      · intro h1 h2
        rw [updateGrid_eval, if_pos ⟨rfl, rfl⟩, updateGrid_eval, if_pos ⟨rfl, rfl⟩]
        exact Or.inr ⟨rfl, hm⟩
      · intro hcon
        exact absurd ⟨hrN, hcN⟩ hcon
    · rw [updateGrid_eval, if_neg hij, updateGrid_eval, if_neg hij]
      exact hcells p hp i j
  · have hq1 : ¬ (player_id = p ∧ p < s.tracking_board.length) := fun hcc => hpq hcc.1.symm
    have hq2 : ¬ (1 - player_id = 1 - p ∧ 1 - p < s.board.length) := by
      intro hcc
      have := hcc.1
      omega
    rw [if_neg hq1, if_neg hq2]
    exact hcells p hp i j

theorem step_preserves_marked (N player_id : Nat) (a : List Char) (s : MatchState)
    (hinv : Inv N s) (hp2 : player_id < 2) (v : Char) (hv : marked v) (q i j : Nat) :
    (s.board.getD q emptyGrid i j = v →
      (step N player_id a s).2.board.getD q emptyGrid i j = v)
    ∧ (s.tracking_board.getD q emptyGrid i j = v →
      (step N player_id a s).2.tracking_board.getD q emptyGrid i j = v) := by
  rcases step_cases N player_id a s with heq | ⟨r, c, out, win, heq⟩
  · rw [heq]
    exact ⟨id, id⟩
  · obtain ⟨letter, hfind, hr, hrN, hcN, htb, hmiss, hhit⟩ := step_shot_inv heq
    obtain ⟨hb, ht, hcells⟩ := hinv
    have hobm : ¬ marked (s.board.getD (1 - player_id) emptyGrid r c) := by
      rcases (hcells player_id hp2 r c).1 hrN hcN with ⟨_, hnm⟩ | ⟨heq2, hmk⟩
      · exact hnm
      · have hoe : s.board.getD (1 - player_id) emptyGrid r c = '~' := heq2.symm.trans htb
        rw [hoe] at hmk
        exact absurd hmk (by decide)
    obtain ⟨m, hs2⟩ : ∃ m, (step N player_id a s).2 = { s with
        tracking_board := s.tracking_board.set player_id
          (updateGrid (s.tracking_board.getD player_id emptyGrid) r c m),
        board := s.board.set (1 - player_id)
          (updateGrid (s.board.getD (1 - player_id) emptyGrid) r c m) } := by
      by_cases hob : s.board.getD (1 - player_id) emptyGrid r c = '~'
      · exact ⟨'O', (hmiss hob).2.1⟩
      · exact ⟨'X', (hhit hob).2.1⟩
    rw [hs2]
    constructor
    · intro hold
      simp only []
      rw [getD_set]
      by_cases h4 : 1 - player_id = q ∧ q < s.board.length
      · rw [if_pos h4, updateGrid_eval]
        by_cases h5 : i = r ∧ j = c
        · obtain ⟨h5i, h5j⟩ := h5
          subst h5i
          subst h5j
          rw [← h4.1] at hold
          rw [hold] at hobm
          exact absurd hv hobm
        · rw [if_neg h5, h4.1]
          exact hold
      · rw [if_neg h4]
        exact hold
    · intro hold
      simp only []
      rw [getD_set]
      by_cases h4 : player_id = q ∧ q < s.tracking_board.length
      · rw [if_pos h4, updateGrid_eval]
        by_cases h5 : i = r ∧ j = c
        · obtain ⟨h5i, h5j⟩ := h5
          subst h5i
          subst h5j
          rw [← h4.1] at hold
          have hveq : v = '~' := by
            rw [← hold, htb]
          rw [hveq] at hv
          exact absurd hv (by decide)
        · rw [if_neg h5, h4.1]
          exact hold
      · rw [if_neg h4]
        exact hold

theorem reach_inv (N : Nat) : ∀ s, Reachable N s → Inv N s := by
  intro s h
  induction h with
  | init n stream s0 hres => exact inv_of_reset N n stream s0 hres
  | step s0 pid a hre hp ih =>
    rcases step_cases N pid a s0 with heq | ⟨r, c, out, win, heq⟩
    · rw [heq]
      exact ih
    · obtain ⟨letter, hfind, hr, hrN, hcN, htb, hmiss, hhit⟩ := step_shot_inv heq
      by_cases hob : s0.board.getD (1 - pid) emptyGrid r c = '~'
      · rw [(hmiss hob).2.1]
        exact inv_shot_update N s0 pid r c 'O' hp (by decide) hrN hcN ih
      · rw [(hhit hob).2.1]
        exact inv_shot_update N s0 pid r c 'X' hp (by decide) hrN hcN ih

/-- C6: in every state reachable from a freshly reset match, a grid or
tracking-grid cell holding a hit or miss marker holds that same marker in
all subsequent states. -/
theorem fired_cells_monotone (N : Nat) (s : MatchState) (acts : List (Nat × List Char))
    (hreach : Reachable N s) (hacts : ∀ x ∈ acts, x.1 < 2)
    (q i j : Nat) (v : Char) (hv : marked v) :
    (s.board.getD q emptyGrid i j = v →
      (runAll N s acts).board.getD q emptyGrid i j = v)
    ∧ (s.tracking_board.getD q emptyGrid i j = v →
      (runAll N s acts).tracking_board.getD q emptyGrid i j = v) := by
  induction acts generalizing s with
  | nil => exact ⟨id, id⟩
  | cons a rest ih =>
    have hp2 : a.1 < 2 := hacts a (List.mem_cons_self _ _)
    have h1 := step_preserves_marked N a.1 a.2 s (reach_inv N s hreach) hp2 v hv q i j
    have hre2 : Reachable N (step N a.1 a.2 s).2 :=
      Reachable.step s a.1 a.2 hreach hp2
    have ih2 := ih (step N a.1 a.2 s).2 hre2
      (fun x hx => hacts x (List.mem_cons.mpr (Or.inr hx)))
    have hrun : runAll N s (a :: rest) = runAll N (step N a.1 a.2 s).2 rest := rfl
    rw [hrun]
    exact ⟨fun h => ih2.1 (h1.1 h), fun h => ih2.2 (h1.2 h)⟩

/-- Witness for C6: after the hit at [A4], the hit marker on the tracking
cell survives a further shot. -/
theorem fired_cells_monotone_witness :
    (step 10 0 ("[A4]".toList) wState).2.tracking_board.getD 0 emptyGrid 0 4 = 'X'
    ∧ ((step 10 0 ("[A4]".toList) wState).2.tracking_board.getD 0 emptyGrid 0 4 = 'X' →
      (runAll 10 (step 10 0 ("[A4]".toList) wState).2
        [(1, "[B2]".toList)]).tracking_board.getD 0 emptyGrid 0 4 = 'X') := by
  have hre : Reachable 10 (step 10 0 ("[A4]".toList) wState).2 :=
    Reachable.step wState 0 ("[A4]".toList) (Reachable.init 2 wStream wState rfl) (by omega)
  exact ⟨by rfl,
    (fired_cells_monotone 10 _ [(1, "[B2]".toList)] hre (by decide) 0 0 4 'X' (by decide)).2⟩

theorem takeWhile_all_append (p : Char → Bool) :
    ∀ (l1 : List Char) (x : Char) (l2 : List Char),
    (∀ a ∈ l1, p a = true) → p x = false →
    (l1 ++ x :: l2).takeWhile p = l1 ∧ (l1 ++ x :: l2).dropWhile p = x :: l2 := by
  intro l1
  induction l1 with
  | nil =>
    intro x l2 h1 h2
    constructor
    · rw [List.nil_append, List.takeWhile_cons, h2]
      simp
    · rw [List.nil_append, List.dropWhile_cons, h2]
      simp
  | cons a t ih =>
    intro x l2 h1 h2
    have hpa : p a = true := h1 a (List.mem_cons_self _ _)
    have iht := ih x l2 (fun b hb => h1 b (List.mem_cons.mpr (Or.inr hb))) h2
    constructor
    · rw [List.cons_append, List.takeWhile_cons, hpa]
      simp only [if_pos]
      rw [iht.1]
    · rw [List.cons_append, List.dropWhile_cons, hpa]
      simp only [if_pos]
      rw [iht.2]

theorem matchAt_some_inv {s : List Char} {letter : Char} {col : Nat}
    (h : matchAt s = some (letter, col)) :
    ∃ ds rest, s = '[' :: letter :: (ds ++ ']' :: rest)
      ∧ letter.isAlpha = true ∧ ds ≠ [] ∧ (∀ d ∈ ds, d.isDigit = true)
      ∧ col = digitsVal ds := by
  unfold matchAt at h
  split at h
  · next c0 c rest =>
    by_cases hcond : c0 = '[' ∧ c.isAlpha = true
    · rw [if_pos hcond] at h
      simp only [] at h
      split at h
      · next d0 ds2 tail heq1 heq2 =>
        injection h with hpair
        injection hpair with hletter hcol
        subst hletter
        obtain ⟨hbr, halpha⟩ := hcond
        subst hbr
        refine ⟨List.takeWhile Char.isDigit rest, tail, ?_, halpha, ?_, ?_, hcol.symm⟩
        · rw [← heq2, List.takeWhile_append_dropWhile]
        · rw [heq1]
          simp
        · intro d hd
          exact List.mem_takeWhile_imp hd
      · next => exact Option.noConfusion h
    · rw [if_neg hcond] at h
      exact Option.noConfusion h
  · next => exact Option.noConfusion h

theorem matchAt_complete (letter : Char) (ds rest : List Char)
    (halpha : letter.isAlpha = true) (hne : ds ≠ []) (hdig : ∀ d ∈ ds, d.isDigit = true) :
    matchAt ('[' :: letter :: (ds ++ ']' :: rest)) = some (letter, digitsVal ds) := by
  obtain ⟨htw, hdw⟩ := takeWhile_all_append Char.isDigit ds ']' rest hdig (by decide)
  simp only [matchAt, true_and]
  rw [if_pos halpha, htw, hdw]
  rcases ds with _ | ⟨d0, ds2⟩
  · exact absurd rfl hne
  · rfl


theorem findCoord_some_inv : ∀ (a : List Char) (letter : Char) (col : Nat),
    findCoord a = some (letter, col) →
    ∃ p ds rest, a.drop p = '[' :: letter :: (ds ++ ']' :: rest)
      ∧ letter.isAlpha = true ∧ ds ≠ [] ∧ (∀ d ∈ ds, d.isDigit = true)
      ∧ col = digitsVal ds
      ∧ ∀ q, q < p → ¬ tokenAt a q := by
  intro a
  induction a with
  | nil =>
    intro letter col h
    exact Option.noConfusion h
  | cons ch rest ih =>
    intro letter col h
    unfold findCoord at h
    rcases hm : matchAt (ch :: rest) with _ | r
    · rw [hm] at h
      obtain ⟨p, ds, tail, hshape, halpha, hne, hdig, hval, hmin⟩ := ih letter col h
      refine ⟨p + 1, ds, tail, hshape, halpha, hne, hdig, hval, ?_⟩
      intro q hq
      cases q with
      | zero =>
        intro htok
        obtain ⟨l2, ds2, r2, hsh2, ha2, hn2, hd2⟩ := htok
        have hcomp := matchAt_complete l2 ds2 r2 ha2 hn2 hd2
        rw [show ch :: rest = '[' :: l2 :: (ds2 ++ ']' :: r2) from hsh2] at hm
        rw [hm] at hcomp
        exact Option.noConfusion hcomp
      | succ q2 =>
        intro htok
        exact hmin q2 (by omega) htok
    · rw [hm] at h
      injection h with hr
      subst hr
      obtain ⟨ds, tail, hshape, halpha, hne, hdig, hval⟩ := matchAt_some_inv hm
      refine ⟨0, ds, tail, hshape, halpha, hne, hdig, hval, ?_⟩
      intro q hq
      omega

theorem findCoord_some_of_token : ∀ (a : List Char) (q : Nat),
    tokenAt a q → findCoord a ≠ none := by
  intro a
  induction a with
  | nil =>
    intro q htok
    obtain ⟨l2, ds2, r2, hsh, ha, hn, hd⟩ := htok
    rw [List.drop_nil] at hsh
    exact List.noConfusion hsh
  | cons ch rest ih =>
    intro q htok hnone
    unfold findCoord at hnone
    rcases hm : matchAt (ch :: rest) with _ | r
    · rw [hm] at hnone
      cases q with
      | zero =>
        obtain ⟨l2, ds2, r2, hsh, ha, hn, hd⟩ := htok
        have hcomp := matchAt_complete l2 ds2 r2 ha hn hd
        rw [show ch :: rest = '[' :: l2 :: (ds2 ++ ']' :: r2) from hsh] at hm
        rw [hm] at hcomp
        exact Option.noConfusion hcomp
      | succ q2 =>
        exact ih q2 htok hnone
    · rw [hm] at hnone
      exact Option.noConfusion hnone

/-- C5: the parser extracts the leftmost bracketed coordinate token (one
case-insensitive letter then a digit run) from anywhere in the action,
using the digit run's decimal value directly as the zero-based column; a
string with a token somewhere always parses; and the scenario action
containing [A4] amid surrounding text resolves as a normal valid shot at
row 0, column 4. -/
theorem findCoord_first_token_and_scenario :
    (∀ (a : List Char) (letter : Char) (col : Nat),
       findCoord a = some (letter, col) →
       ∃ p ds rest, a.drop p = '[' :: letter :: (ds ++ ']' :: rest)
         ∧ letter.isAlpha = true ∧ ds ≠ [] ∧ (∀ d ∈ ds, d.isDigit = true)
         ∧ col = digitsVal ds
         ∧ ∀ q, q < p → ¬ tokenAt a q)
    ∧ (∀ (a : List Char) (q : Nat), tokenAt a q → findCoord a ≠ none)
    ∧ (step 10 0 scenarioAction wState).1 = StepResult.shot 0 4 ShotOutcome.hit false :=
  ⟨findCoord_some_inv, findCoord_some_of_token, by rfl⟩

/-- Witness for C5: the action x[B12]y parses to the token at position 1
with column value 12, and no token precedes it. -/
theorem findCoord_first_token_witness :
    ∃ p ds rest, ("x[B12]y".toList).drop p = '[' :: 'B' :: (ds ++ ']' :: rest)
      ∧ Char.isAlpha 'B' = true ∧ ds ≠ [] ∧ (∀ d ∈ ds, d.isDigit = true)
      ∧ 12 = digitsVal ds
      ∧ ∀ q, q < p → ¬ tokenAt ("x[B12]y".toList) q :=
  findCoord_first_token_and_scenario.1 ("x[B12]y".toList) 'B' 12 (by rfl)

end Battleship
